import Mathlib

/-!
# Verification of the goatbass touch-to-pitch and voice-lifecycle engine

Shallow embedding of the core of the repository:

* `src/constants.ts` — master string pool and `getTuning`;
* `src/services/AudioEngine.ts` — the voice registry (`activeNodes`) and its
  lifecycle operations `startNote` / `updateNotePitch` / `stopNote` /
  `killNoteImmediate` / `isNotePlaying`, plus `makeDistortionCurve`;
* `src/components/Fretboard.tsx` — geometry helpers, `processInput`,
  the monophonic demand resolver of `syncAudioEngine`, the auto-tune step of
  the game loop, and the touch/mouse event handlers.

Modelling conventions:

* JavaScript numbers are embedded as exact rationals (`ℚ`).  All arithmetic
  appearing in the embedded code (`+ - * / %`, `Math.abs`, `Math.floor`,
  `Math.ceil`, `Math.max`, `Math.min`, comparisons) is exact on the values
  the claims are about.
* A produced frequency is always of the shape `base * 2^(semis/12)` with
  `base` the (rational) open-string frequency and `semis` a rational
  semitone offset (`calculateFreqFromSemitones` in the source).  Since
  `x ↦ 2^x` is strictly monotone and the bases are positive, the pair
  `(base, semis)` describes the real frequency exactly, and two pitches with
  the same base are equal as real numbers iff the pairs are equal.  We embed
  frequencies as this pair (`Pitch` below); that keeps every definition
  computable.  The two float comparisons of the source that compare such
  frequencies against a small tolerance (`Math.abs(a-b) > 0.01` and
  `Math.abs(a-b) > 0.001`) are kept abstract as a pair of boolean predicates
  (`FreqGuards`); theorems assume of them only properties that the real
  interpretation satisfies (e.g. irreflexivity: `|x - x| > ε` is false).
* JavaScript `Map`s keyed by note id are embedded as functions
  `K → Option Voice` (a `Map` holds at most one value per key); the
  `touchesRef` map, whose insertion/iteration order matters to the
  monophonic arbitration, is embedded as a `List` with unique ids, which is
  exactly a JS `Map`'s iteration semantics (insertion order, in-place
  update, delete-by-filter).
* Wall-clock time (`Date.now()`, `setTimeout`) and the audio clock
  (`ctx.currentTime`) are explicit rational parameters; a scheduled
  teardown timer is a record carrying its key, the identity of the voice it
  captured, and its fire time, and "the timer fires" is an explicit step.
-/

/-! ## Pitches

A `Pitch` stands for the real frequency `base * 2^(semi/12)` Hz, the only
shape of frequency ever produced by `calculateFreqFromSemitones`.  For a
fixed positive base, distinct `semi` values denote distinct real
frequencies (strict monotonicity of `2^x`), so equality of `Pitch` values
with equal bases coincides with equality of the real frequencies. -/
structure Pitch where
  base : ℚ
  semi : ℚ
deriving DecidableEq, Repr

/-- The two tolerance comparisons the source performs on produced
frequencies, kept abstract because they compare irrational reals:
`gt01 a b` models `Math.abs(a - b) > 0.01` and `gt001 a b` models
`Math.abs(a - b) > 0.001`, both on the real values of the pitches.
Theorems only ever assume properties that are true of this real
interpretation (irreflexivity). -/
structure FreqGuards where
  gt01 : Pitch → Pitch → Bool
  gt001 : Pitch → Pitch → Bool

/-- A concrete instance of the guards used by witnesses: "differ at all".
It satisfies the irreflexivity assumptions used in the theorems. -/
def exactGuards : FreqGuards :=
  { gt01 := fun a b => decide (a ≠ b)
    gt001 := fun a b => decide (a ≠ b) }

/-! ## `src/constants.ts` -/

/-- One entry of the string pool: `{ name, note, freq }`. -/
structure StringEntry where
  name : String
  note : String
  freq : ℚ
deriving DecidableEq, Repr

/-- Master pool of strings from High to Low (8-string range: F3 down to
F#0), from `src/constants.ts`. -/
def STRING_POOL : List StringEntry :=
  [ ⟨"F", "F3", 174.61⟩
  , ⟨"C", "C3", 130.81⟩
  , ⟨"G", "G2", 98.00⟩
  , ⟨"D", "D2", 73.42⟩
  , ⟨"A", "A1", 55.00⟩
  , ⟨"E", "E1", 41.20⟩
  , ⟨"B", "B0", 30.87⟩
  , ⟨"F#", "F#0", 23.12⟩ ]

/-- `STRING_POOL.slice(a, b)` of JavaScript. -/
def poolSlice (a b : ℕ) : List StringEntry :=
  (STRING_POOL.drop a).take (b - a)

/-- The `switch` body of `getTuning`, applied to the already-clamped count.
The snapshot of `src/constants.ts` carries two revisions of `getTuning`
(one additionally reverses each slice); the revision embedded here is the
chart-perspective one (index 0 = highest pitch, no `reverse()`), which is
the revision in `src/unnamed/part_002`, the second revision in
`src/constants.ts`, and the one the `Fretboard` renderer is written
against ("Top string (i=0) is High Pitch (Thin)"). -/
def tuningOf (clamped : ℤ) : List StringEntry :=
  if clamped = 4 then poolSlice 2 6
  else if clamped = 5 then poolSlice 2 7
  else if clamped = 6 then poolSlice 1 7
  else if clamped = 7 then poolSlice 0 7
  else if clamped = 8 then poolSlice 0 8
  else poolSlice 1 7

/-- `getTuning(count)`: clamp the count into `[4,8]`, then slice the pool. -/
def getTuning (count : ℤ) : List StringEntry :=
  tuningOf (max 4 (min 8 count))

/-- `DEFAULT_TUNING = getTuning(6)`. -/
def DEFAULT_TUNING : List StringEntry := getTuning 6

/-- `NUT_WIDTH_PERCENT = 8`: the "open string" zone percentage. -/
def NUT_WIDTH_PERCENT : ℚ := 8

/-- C6: `getTuning n` for `n ∈ [4,8]` has exactly `n` entries, is a
contiguous slice of the 8-entry master pool, its base frequencies are
strictly decreasing (so index 0 is the highest-pitch string), and any
count is first clamped into `[4,8]`. -/
theorem getTuning_spec :
    STRING_POOL.length = 8 ∧
    (∀ c : ℤ, getTuning c = getTuning (max 4 (min 8 c))) ∧
    (∀ c : ℤ, 4 ≤ c → c ≤ 8 → (getTuning c).length = c.toNat) ∧
    (∀ c : ℤ, ∃ a b : ℕ, b ≤ 8 ∧ getTuning c = poolSlice a b) ∧
    (∀ c : ℤ, (getTuning c).Pairwise (fun x y => y.freq < x.freq)) := by
  have hcase : ∀ c : ℤ, max 4 (min 8 c) = 4 ∨ max 4 (min 8 c) = 5 ∨
      max 4 (min 8 c) = 6 ∨ max 4 (min 8 c) = 7 ∨ max 4 (min 8 c) = 8 := by
    intro c; omega
  have htrans : IsTrans StringEntry (fun x y => y.freq < x.freq) :=
    ⟨fun _ _ _ hab hbc => lt_trans hbc hab⟩
  have hpool : STRING_POOL.Pairwise (fun x y => y.freq < x.freq) := by
    rw [← List.chain'_iff_pairwise]
    simp only [STRING_POOL, List.chain'_cons, List.chain'_singleton]
    norm_num
  have hslice : ∀ a b : ℕ, (poolSlice a b).Pairwise (fun x y => y.freq < x.freq) := by
    intro a b
    exact List.Pairwise.sublist
      ((List.take_sublist _ _).trans (List.drop_sublist _ _)) hpool
  refine ⟨rfl, ?_, ?_, ?_, ?_⟩
  · intro c
    unfold getTuning
    congr 1
    omega
  · intro c h4 h8
    have hc : max 4 (min 8 c) = c := by omega
    unfold getTuning
    rw [hc]
    rcases (by omega : c = 4 ∨ c = 5 ∨ c = 6 ∨ c = 7 ∨ c = 8) with h | h | h | h | h <;>
      subst h <;> rfl
  · intro c
    unfold getTuning
    rcases hcase c with h | h | h | h | h <;> rw [h]
    · exact ⟨2, 6, by decide, rfl⟩
    · exact ⟨2, 7, by decide, rfl⟩
    · exact ⟨1, 7, by decide, rfl⟩
    · exact ⟨0, 7, by decide, rfl⟩
    · exact ⟨0, 8, by decide, rfl⟩
  · intro c
    unfold getTuning
    rcases hcase c with h | h | h | h | h <;> rw [h] <;>
      · show (poolSlice _ _).Pairwise _
        exact hslice _ _

/-! ## `src/services/AudioEngine.ts` — voice registry and lifecycle

The engine's observable note state is its `activeNodes` map from note key
to `{ sources, gain, panner, startTime, baseFreq, isReleasing }`.  A voice
is modelled by its JavaScript object identity (`vid`, the role played by
pointer equality in `activeNodes.get(noteId) === node`), its `startTime`,
`baseFreq` and `isReleasing` flag; the audio nodes themselves (`sources`,
`gain`, `panner`) only receive scheduled parameter automation and are not
part of the registry-lifecycle claims.  The engine is generic in the key
type: the source keys every operation by an arbitrary string and only ever
compares keys for equality. -/

/-- One entry of `activeNodes`. -/
structure Voice where
  vid : ℕ
  startTime : ℚ
  baseFreq : ℚ
  isReleasing : Bool
deriving DecidableEq, Repr

/-- A deferred teardown scheduled by `stopNote`'s `window.setTimeout`:
it captured the key, the identity of the voice it is to clean up, and
fires `release + 0.2` seconds after the stop (the source passes
`(release + 0.2) * 1000` milliseconds to `setTimeout`). -/
structure CleanupTimer (K : Type) where
  key : K
  vid : ℕ
  fireAt : ℚ
deriving DecidableEq, Repr

/-- Engine state: `ctx` nullness, the audio clock, the settings fields the
registry operations read (`octaveShift` scales every incoming frequency,
`release` sizes the release tail), the registry itself, the next fresh
voice identity, the log of voices killed by `killNoteImmediate`, and the
scheduled teardown timers not yet fired. -/
structure EngineState (K : Type) where
  initialized : Bool
  now : ℚ
  octaveShift : Bool
  release : ℚ
  registry : K → Option Voice
  nextVid : ℕ
  killed : List ℕ
  pending : List (CleanupTimer K)

/-- Point-update of the registry (a JS `Map.set` / `Map.delete`). -/
def setKey {K : Type} [DecidableEq K] (r : K → Option Voice) (k : K)
    (v : Option Voice) : K → Option Voice :=
  fun k' => if k' = k then v else r k'

/-- `killNoteImmediate(noteId)`: if the key holds a voice, remove it from
the registry at once (the gain ramp-down, the 50 ms oscillator stops, the
vibrato detach and the 100 ms deferred disconnect act on the audio nodes,
not on the registry).  The kill is recorded in `killed`. -/
def killNoteImmediate {K : Type} [DecidableEq K] (s : EngineState K)
    (noteId : K) : EngineState K :=
  if s.initialized then
    match s.registry noteId with
    | none => s
    | some node =>
        { s with registry := setKey s.registry noteId none
               , killed := node.vid :: s.killed }
  else s

/-- `startNote(noteId, frequency, velocity, stringIndex)`: if the key
already holds any voice, `killNoteImmediate` it first; then build the
sources and register a fresh voice, not releasing, at `baseFreq = playFreq`
(doubled under `octaveShift`).  `velocity` and `stringIndex` shape the
gain envelope and the stereo pan of the audio nodes only. -/
def startNote {K : Type} [DecidableEq K] (s : EngineState K) (noteId : K)
    (frequency velocity : ℚ) (stringIndex : ℕ) : EngineState K :=
  if s.initialized then
    let s1 := if (s.registry noteId).isSome then killNoteImmediate s noteId else s
    let playFreq := if s.octaveShift then frequency * 2 else frequency
    { s1 with
        registry := setKey s1.registry noteId
          (some { vid := s1.nextVid, startTime := s1.now
                , baseFreq := playFreq, isReleasing := false })
      , nextVid := s1.nextVid + 1 }
  else s

/-- `updateNotePitch(noteId, frequency)`: glide the sources and record the
new `baseFreq` only if the key holds a voice that is not releasing. -/
def updateNotePitch {K : Type} [DecidableEq K] (s : EngineState K)
    (noteId : K) (frequency : ℚ) : EngineState K :=
  if s.initialized then
    match s.registry noteId with
    | some node =>
        if node.isReleasing then s
        else
          let playFreq := if s.octaveShift then frequency * 2 else frequency
          { s with registry :=
              setKey s.registry noteId (some { node with baseFreq := playFreq }) }
    | none => s
  else s

/-- `stopNote(noteId)`: if the key holds a non-releasing voice, mark it
releasing immediately, ramp the gain down over `max(0.05, release)`
seconds, and schedule the deferred teardown `release + 0.2` seconds
later.  The timer captures the voice's identity. -/
def stopNote {K : Type} [DecidableEq K] (s : EngineState K) (noteId : K) :
    EngineState K :=
  if s.initialized then
    match s.registry noteId with
    | some node =>
        if node.isReleasing then s
        else
          let release := max 0.05 s.release
          { s with
              registry := setKey s.registry noteId
                (some { node with isReleasing := true })
            , pending := s.pending ++
                [{ key := noteId, vid := node.vid, fireAt := s.now + release + 0.2 }] }
    | none => s
  else s

/-- The `setTimeout` callback scheduled by `stopNote` fires: the timer is
consumed, and the voice is disconnected and removed from the registry only
if the registry still maps the key to the very voice the closure captured
(`this.activeNodes.get(noteId) === node`). -/
def fireCleanup {K : Type} [DecidableEq K] (s : EngineState K)
    (t : CleanupTimer K) : EngineState K :=
  let s0 := { s with pending := s.pending.erase t }
  match s0.registry t.key with
  | some node =>
      if node.vid = t.vid then
        { s0 with registry := setKey s0.registry t.key none }
      else s0
  | none => s0

/-- `isNotePlaying(noteId)`: the note exists and is not fading out. -/
def isNotePlaying {K : Type} [DecidableEq K] (s : EngineState K)
    (noteId : K) : Bool :=
  match s.registry noteId with
  | some node => !node.isReleasing
  | none => false

/-- A sample active (non-releasing) voice for witnesses. -/
def sampleVoice : Voice :=
  { vid := 5, startTime := 1, baseFreq := 110, isReleasing := false }

/-- A sample releasing voice for witnesses. -/
def sampleReleasing : Voice :=
  { vid := 9, startTime := 2, baseFreq := 220, isReleasing := true }

/-- A sample engine state for witnesses: key `0` holds an active voice,
key `1` holds a releasing voice, every other key is free. -/
def sampleState : EngineState ℕ :=
  { initialized := true, now := 3, octaveShift := false, release := 1
  , registry := fun k => if k = 0 then some sampleVoice
      else if k = 1 then some sampleReleasing else none
  , nextVid := 10, killed := [], pending := [] }


/-- Shared computation lemma: `startNote` on an occupied key registers the
fresh voice `s.nextVid` and pushes the old voice on the kill log. -/
theorem startNote_run {K : Type} [DecidableEq K] (s : EngineState K)
    (k : K) (frequency velocity : ℚ) (stringIndex : ℕ) (old : Voice)
    (hinit : s.initialized = true) (hold : s.registry k = some old) :
    (startNote s k frequency velocity stringIndex).registry k =
      some { vid := s.nextVid, startTime := s.now
           , baseFreq := if s.octaveShift then frequency * 2 else frequency
           , isReleasing := false } ∧
    (startNote s k frequency velocity stringIndex).killed = old.vid :: s.killed := by
  have hsome : (s.registry k).isSome = true := by rw [hold]; rfl
  simp only [startNote, killNoteImmediate, hinit, hold, hsome, if_true, setKey,
    if_pos rfl]
  exact ⟨rfl, rfl⟩

/-- C1: starting a note at a key that already holds a voice (releasing or
not) first kills that voice immediately (its identity is pushed on the
kill log) and then registers a fresh, non-releasing voice under the key;
afterwards the key maps to exactly that one voice.  The registry holds one
`Option Voice` per key, so a key can never hold two entries, hence never
two non-releasing voices, at once. -/
theorem startNote_steals_key {K : Type} [DecidableEq K] (s : EngineState K)
    (k : K) (frequency velocity : ℚ) (stringIndex : ℕ) (old : Voice)
    (hinit : s.initialized = true) (hold : s.registry k = some old) :
    (startNote s k frequency velocity stringIndex).registry k =
      some { vid := s.nextVid, startTime := s.now
           , baseFreq := if s.octaveShift then frequency * 2 else frequency
           , isReleasing := false } ∧
    (∀ w, (startNote s k frequency velocity stringIndex).registry k = some w →
      w.isReleasing = false) ∧
    (startNote s k frequency velocity stringIndex).killed = old.vid :: s.killed := by
  obtain ⟨hreg, hkill⟩ :=
    startNote_run s k frequency velocity stringIndex old hinit hold
  refine ⟨hreg, ?_, hkill⟩
  intro w hw
  rw [hreg] at hw
  have hww := hw.symm
  simp only [Option.some_inj] at hww
  rw [hww]

/-- Witness for C1 at a concrete state: key `0` of `sampleState` holds
`sampleVoice`; restarting it yields the fresh voice `10` and logs the
kill of voice `5`. -/
theorem startNote_steals_key_witness :
    sampleState.initialized = true ∧ sampleState.registry 0 = some sampleVoice ∧
    ((startNote sampleState 0 440 1 2).registry 0 =
      some { vid := sampleState.nextVid, startTime := sampleState.now
           , baseFreq := if sampleState.octaveShift then 440 * 2 else 440
           , isReleasing := false } ∧
    (∀ w, (startNote sampleState 0 440 1 2).registry 0 = some w →
      w.isReleasing = false) ∧
    (startNote sampleState 0 440 1 2).killed = sampleVoice.vid :: sampleState.killed) :=
  ⟨rfl, rfl, startNote_steals_key sampleState 0 440 1 2 sampleVoice rfl rfl⟩

/-- C4: stopping a registered, non-releasing voice makes `isNotePlaying`
false synchronously (the registry entry is flipped to releasing in place),
while the entry itself stays in the registry until the deferred cleanup
timer fires. -/
theorem stopNote_sync {K : Type} [DecidableEq K] (s : EngineState K)
    (k : K) (v : Voice)
    (hinit : s.initialized = true) (hv : s.registry k = some v)
    (hrel : v.isReleasing = false) :
    isNotePlaying (stopNote s k) k = false ∧
    (stopNote s k).registry k = some { v with isReleasing := true } := by
  simp only [stopNote, hinit, hv, hrel, if_true, Bool.false_eq_true, if_false,
    isNotePlaying, setKey, if_pos rfl]
  exact ⟨rfl, trivial⟩

/-- Witness for C4 at `sampleState`, key `0`. -/
theorem stopNote_sync_witness :
    sampleState.initialized = true ∧ sampleState.registry 0 = some sampleVoice ∧
    sampleVoice.isReleasing = false ∧
    (isNotePlaying (stopNote sampleState 0) 0 = false ∧
      (stopNote sampleState 0).registry 0 =
        some { sampleVoice with isReleasing := true }) :=
  ⟨rfl, rfl, rfl, stopNote_sync sampleState 0 sampleVoice rfl rfl rfl⟩

/-- C5: unknown keys are no-ops for `stopNote`, `updateNotePitch` and
`killNoteImmediate`; `updateNotePitch` on a releasing voice changes
nothing; `stopNote` of an already-releasing voice changes nothing, so a
double release is an idempotent no-op, and so is a double kill of the
same voice (the second kill finds the key empty). -/
theorem engine_noop_spec {K : Type} [DecidableEq K] (s : EngineState K)
    (k₁ k₂ k₃ : K) (f₁ f₂ : ℚ) (v : Voice)
    (h₁ : s.registry k₁ = none) (h₂ : s.registry k₂ = some v)
    (hrel : v.isReleasing = true) :
    stopNote s k₁ = s ∧ updateNotePitch s k₁ f₁ = s ∧
    killNoteImmediate s k₁ = s ∧
    updateNotePitch s k₂ f₂ = s ∧ stopNote s k₂ = s ∧
    stopNote (stopNote s k₃) k₃ = stopNote s k₃ ∧
    killNoteImmediate (killNoteImmediate s k₃) k₃ = killNoteImmediate s k₃ := by
  refine ⟨?_, ?_, ?_, ?_, ?_, ?_, ?_⟩
  · cases hi : s.initialized <;> simp [stopNote, hi, h₁]
  · cases hi : s.initialized <;> simp [updateNotePitch, hi, h₁]
  · cases hi : s.initialized <;> simp [killNoteImmediate, hi, h₁]
  · cases hi : s.initialized <;> simp [updateNotePitch, hi, h₂, hrel]
  · cases hi : s.initialized <;> simp [stopNote, hi, h₂, hrel]
  · cases hi : s.initialized with
    | false =>
        have hstop : stopNote s k₃ = s := by simp [stopNote, hi]
        rw [hstop, hstop]
    | true =>
        cases hv : s.registry k₃ with
        | none =>
            have hstop : stopNote s k₃ = s := by simp [stopNote, hi, hv]
            rw [hstop, hstop]
        | some w =>
            cases hw : w.isReleasing with
            | true =>
                have hstop : stopNote s k₃ = s := by simp [stopNote, hi, hv, hw]
                rw [hstop, hstop]
            | false =>
                have hreg : (stopNote s k₃).registry k₃ =
                    some { w with isReleasing := true } := by
                  simp [stopNote, hi, hv, hw, setKey]
                have hi2 : (stopNote s k₃).initialized = true := by
                  simp [stopNote, hi, hv, hw]
                conv_lhs => rw [stopNote]
                rw [hi2, hreg]
                simp
  · cases hi : s.initialized with
    | false =>
        have hkill : killNoteImmediate s k₃ = s := by simp [killNoteImmediate, hi]
        rw [hkill, hkill]
    | true =>
        cases hv : s.registry k₃ with
        | none =>
            have hkill : killNoteImmediate s k₃ = s := by
              simp [killNoteImmediate, hi, hv]
            rw [hkill, hkill]
        | some w =>
            have hreg : (killNoteImmediate s k₃).registry k₃ = none := by
              simp [killNoteImmediate, hi, hv, setKey]
            have hi2 : (killNoteImmediate s k₃).initialized = true := by
              simp [killNoteImmediate, hi, hv]
            conv_lhs => rw [killNoteImmediate]
            rw [hi2, hreg]
            simp

/-- Witness for C5 at `sampleState`: key `2` is unknown, key `1` holds the
releasing `sampleReleasing`, and key `0` (an active voice) exercises the
double-release and double-kill idempotency. -/
theorem engine_noop_spec_witness :
    sampleState.registry 2 = none ∧
    sampleState.registry 1 = some sampleReleasing ∧
    sampleReleasing.isReleasing = true ∧
    (stopNote sampleState 2 = sampleState ∧
      updateNotePitch sampleState 2 330 = sampleState ∧
      killNoteImmediate sampleState 2 = sampleState ∧
      updateNotePitch sampleState 1 330 = sampleState ∧
      stopNote sampleState 1 = sampleState ∧
      stopNote (stopNote sampleState 0) 0 = stopNote sampleState 0 ∧
      killNoteImmediate (killNoteImmediate sampleState 0) 0 =
        killNoteImmediate sampleState 0) :=
  ⟨rfl, rfl, rfl, engine_noop_spec sampleState 2 1 0 330 330 sampleReleasing rfl rfl rfl⟩

/-- C8: `stopNote` schedules a teardown timer carrying the released
voice's identity, firing `max(0.05, release) + 0.2` seconds later.  A
firing timer whose captured identity no longer matches the voice at its
key (the key was re-used) leaves the registry untouched, as does a timer
whose key is empty; with no re-use, the timer scheduled by `stopNote`
removes the key from the registry when it fires, and after a re-use by a
fresh `startNote` the stale timer leaves the new voice in place. -/
theorem deferred_cleanup_identity {K : Type} [DecidableEq K]
    (s s₂ : EngineState K) (k : K) (v w : Voice) (t : CleanupTimer K)
    (frequency velocity : ℚ) (stringIndex : ℕ)
    (hinit : s.initialized = true) (hv : s.registry k = some v)
    (hrel : v.isReleasing = false) :
    (stopNote s k).pending = s.pending ++
      [{ key := k, vid := v.vid, fireAt := s.now + max 0.05 s.release + 0.2 }] ∧
    (s₂.registry t.key = some w → w.vid ≠ t.vid →
      (fireCleanup s₂ t).registry = s₂.registry) ∧
    (s₂.registry t.key = none → (fireCleanup s₂ t).registry = s₂.registry) ∧
    (fireCleanup (stopNote s k)
      { key := k, vid := v.vid, fireAt := s.now + max 0.05 s.release + 0.2 }).registry k
      = none ∧
    (v.vid ≠ s.nextVid →
      (fireCleanup (startNote (stopNote s k) k frequency velocity stringIndex)
          { key := k, vid := v.vid, fireAt := s.now + max 0.05 s.release + 0.2 }).registry
        = (startNote (stopNote s k) k frequency velocity stringIndex).registry) := by
  have hpend : (stopNote s k).pending = s.pending ++
      [{ key := k, vid := v.vid, fireAt := s.now + max 0.05 s.release + 0.2 }] := by
    simp [stopNote, hinit, hv, hrel]
  have hreg : (stopNote s k).registry k = some { v with isReleasing := true } := by
    simp [stopNote, hinit, hv, hrel, setKey]
  refine ⟨hpend, ?_, ?_, ?_, ?_⟩
  · intro hw hne
    simp [fireCleanup, hw, hne]
  · intro hw
    simp [fireCleanup, hw]
  · simp [fireCleanup, hreg, setKey]
  · intro hne
    have hi2 : (stopNote s k).initialized = true := by
      simp [stopNote, hinit, hv, hrel]
    have hnext : (stopNote s k).nextVid = s.nextVid := by
      simp [stopNote, hinit, hv, hrel]
    have hstart : (startNote (stopNote s k) k frequency velocity stringIndex).registry k =
        some { vid := s.nextVid, startTime := (stopNote s k).now
             , baseFreq := if (stopNote s k).octaveShift then frequency * 2 else frequency
             , isReleasing := false } := by
      rw [← hnext]
      exact (startNote_run (stopNote s k) k frequency velocity stringIndex
        { v with isReleasing := true } hi2 hreg).1
    simp [fireCleanup, hstart, Ne.symm hne]

/-- Witness for C8 at `sampleState`, key `0` (voice `5`, next fresh voice
`10`). -/
theorem deferred_cleanup_identity_witness :
    sampleState.initialized = true ∧ sampleState.registry 0 = some sampleVoice ∧
    sampleVoice.isReleasing = false ∧
    ((stopNote sampleState 0).pending = sampleState.pending ++
      [{ key := 0, vid := sampleVoice.vid
       , fireAt := sampleState.now + max 0.05 sampleState.release + 0.2 }] ∧
    (sampleState.registry 1 = some sampleReleasing → sampleReleasing.vid ≠ 3 →
      (fireCleanup sampleState { key := 1, vid := 3, fireAt := 0 }).registry =
        sampleState.registry) ∧
    (sampleState.registry 2 = none →
      (fireCleanup sampleState { key := 2, vid := 3, fireAt := 0 }).registry =
        sampleState.registry) ∧
    (fireCleanup (stopNote sampleState 0)
      { key := 0, vid := sampleVoice.vid
      , fireAt := sampleState.now + max 0.05 sampleState.release + 0.2 }).registry 0
      = none ∧
    (sampleVoice.vid ≠ sampleState.nextVid →
      (fireCleanup (startNote (stopNote sampleState 0) 0 330 1 0)
          { key := 0, vid := sampleVoice.vid
          , fireAt := sampleState.now + max 0.05 sampleState.release + 0.2 }).registry
        = (startNote (stopNote sampleState 0) 0 330 1 0).registry)) := by
  have h := deferred_cleanup_identity sampleState sampleState 0 sampleVoice
    sampleReleasing { key := 1, vid := 3, fireAt := 0 } 330 1 0 rfl rfl rfl
  refine ⟨rfl, rfl, rfl, h.1, h.2.1, ?_, h.2.2.2.1, h.2.2.2.2⟩
  intro hnone
  exact (deferred_cleanup_identity sampleState sampleState 0 sampleVoice
    sampleReleasing { key := 2, vid := 3, fireAt := 0 } 330 1 0 rfl rfl rfl).2.2.1 hnone

/-! ## `makeDistortionCurve` (`src/services/AudioEngine.ts`)

`makeDistortionCurve(amount)` fills a 44100-sample table over the abscissas
`x = (i*2)/44100 - 1`; at `amount = 0` the table is the identity ramp,
otherwise sample `i` is `((3+k)*x*20*deg) / (Math.PI + k*Math.abs(x))` with
`k = amount` and `deg = Math.PI/180`.  The transcendental constant
`Math.PI` is carried as an explicit positive parameter `p`: every property
claimed of the curve holds for every positive value of `p`, in particular
for `π` itself. -/

/-- Sample abscissa `x = (i*2)/n_samples - 1`. -/
def curveX (i : ℕ) : ℚ := ((i : ℚ) * 2) / 44100 - 1

/-- The waveshaping function `((3+k)*x*20*deg) / (p + k*|x|)`, with
`deg = p/180` and `p` standing for `Math.PI`. -/
def distortionF (p k x : ℚ) : ℚ :=
  ((3 + k) * x * 20 * (p / 180)) / (p + k * |x|)

/-- `makeDistortionCurve(amount)`, sample `i` (the `Float32Array` table is
a function from sample index; indices `i < 44100` are the ones stored). -/
def makeDistortionCurve (p amount : ℚ) (i : ℕ) : ℚ :=
  if amount = 0 then curveX i
  else distortionF p amount (curveX i)

/-- C9: at drive `0` the curve is exactly the sampled identity ramp
`i ↦ 2i/44100 - 1`; at any drive `k > 0` the curve samples the function
`f(x) = (3+k)·x·C / (p + k·|x|)` (`C = 20·p/180`), which is antisymmetric
and strictly monotonically increasing on `[-1, 1]` — for every positive
value `p` of `Math.PI`. -/
theorem makeDistortionCurve_spec (p k x y : ℚ) (hp : 0 < p) (hk : 0 < k)
    (hx : -1 ≤ x) (hxy : x < y) (hy : y ≤ 1) :
    (∀ i : ℕ, makeDistortionCurve p 0 i = ((i : ℚ) * 2) / 44100 - 1) ∧
    (∀ i : ℕ, makeDistortionCurve p k i = distortionF p k (curveX i)) ∧
    (∀ z : ℚ, distortionF p k (-z) = -distortionF p k z) ∧
    distortionF p k x < distortionF p k y := by
  have hk0 : k ≠ 0 := ne_of_gt hk
  refine ⟨fun i => by simp [makeDistortionCurve, curveX], fun i => by
    simp [makeDistortionCurve, hk0], ?_, ?_⟩
  · intro z
    unfold distortionF
    rw [abs_neg]
    ring_nf
  · have hdx : 0 < p + k * |x| := by positivity
    have hdy : 0 < p + k * |y| := by positivity
    have hbase : x / (p + k * |x|) < y / (p + k * |y|) := by
      rw [div_lt_div_iff hdx hdy]
      have hpxy := mul_lt_mul_of_pos_right hxy hp
      rcases abs_cases x with ⟨hax, hsx⟩ | ⟨hax, hsx⟩ <;>
        rcases abs_cases y with ⟨hay, hsy⟩ | ⟨hay, hsy⟩ <;> rw [hax, hay]
      · nlinarith
      · nlinarith
      · nlinarith [mul_nonneg (mul_nonneg hk.le hsy) (neg_nonneg.2 hsx.le)]
      · nlinarith
    have hA : 0 < (3 + k) * 20 * (p / 180) := by positivity
    have hrx : distortionF p k x =
        ((3 + k) * 20 * (p / 180)) * (x / (p + k * |x|)) := by
      unfold distortionF
      ring
    have hry : distortionF p k y =
        ((3 + k) * 20 * (p / 180)) * (y / (p + k * |y|)) := by
      unfold distortionF
      ring
    rw [hrx, hry]
    exact mul_lt_mul_of_pos_left hbase hA

/-- Witness for C9 at `p = 4`, `k = 1`, `x = -1/2`, `y = 1/2`. -/
theorem makeDistortionCurve_spec_witness :
    (0 : ℚ) < 4 ∧ (0 : ℚ) < 1 ∧ (-1 : ℚ) ≤ -1/2 ∧ (-1/2 : ℚ) < 1/2 ∧
    (1/2 : ℚ) ≤ 1 ∧
    ((∀ i : ℕ, makeDistortionCurve 4 0 i = ((i : ℚ) * 2) / 44100 - 1) ∧
    (∀ i : ℕ, makeDistortionCurve 4 1 i = distortionF 4 1 (curveX i)) ∧
    (∀ z : ℚ, distortionF 4 1 (-z) = -distortionF 4 1 z) ∧
    distortionF 4 1 (-1/2) < distortionF 4 1 (1/2)) :=
  ⟨by norm_num, by norm_num, by norm_num, by norm_num, by norm_num,
    makeDistortionCurve_spec 4 1 (-1/2) (1/2) (by norm_num) (by norm_num)
      (by norm_num) (by norm_num) (by norm_num)⟩

/-! ## `src/components/Fretboard.tsx` — touch reconciliation

`processInput` and its helpers close over the container's bounding rect,
`window.innerWidth` (choosing the vertical padding), the memoised
`currentTuning`, `semitoneRange = settings.fretCount` and
`settings.velocitySensitivity`; these are gathered in `FretEnv`.
`touchesRef` is a JS `Map` from pointer id to `TouchData`, embedded as a
list in insertion order with unique ids (`Map.set` of a new key appends,
of an existing key updates in place; `Map.delete` filters; iteration is
insertion order). -/

/-- A DOM bounding rect. -/
structure Rect where
  left : ℚ
  top : ℚ
  width : ℚ
  height : ℚ
deriving DecidableEq, Repr

/-- The context the input handlers close over. -/
structure FretEnv where
  rect : Rect
  innerWidth : ℚ
  tuning : List StringEntry
  fretCount : ℚ
  sensitivity : ℚ

/-- The per-pointer `TouchData` record.  `noteId` (an engine-unused unique
label built from a global counter and `Date.now()`) is carried as an
opaque number supplied by the caller. -/
structure TouchData where
  touchId : ℤ
  stringIndex : ℕ
  freq : Pitch
  noteId : ℕ
  startOffset : ℚ
  velocity : ℚ
  xPercent : ℚ
  lastMove : ℚ
  isTuned : Bool
  rawSemitones : ℚ
deriving DecidableEq, Repr

/-- `MOUSE_ID = 88888`, the reserved synthetic mouse pointer id. -/
def MOUSE_ID : ℤ := 88888

/-- `getVerticalPadding()`: `window.innerWidth >= 768 ? 56 : 40`. -/
def getVerticalPadding (innerWidth : ℚ) : ℚ :=
  if 768 ≤ innerWidth then 56 else 40

/-- `getRawStringPos(clientY, rect, tuningLength)`. -/
def getRawStringPos (env : FretEnv) (clientY : ℚ) : ℚ :=
  let padding := getVerticalPadding env.innerWidth
  let playableHeight := env.rect.height - padding * 2
  if playableHeight ≤ 0 then 0
  else
    let stringHeight := playableHeight / (env.tuning.length : ℚ)
    let relativeY := clientY - env.rect.top
    let adjustedY := relativeY - padding
    adjustedY / stringHeight

/-- Clamp `Math.max(0, Math.min(len - 1, j))` of a lane index. -/
def clampIndex (n : ℕ) (j : ℤ) : ℕ :=
  (max 0 (min ((n : ℤ) - 1) j)).toNat

/-- `getStringIndexFromY(clientY, rect)`: floor of the raw lane position,
clamped into `[0, tuning.length - 1]`. -/
def getStringIndexFromY (env : FretEnv) (clientY : ℚ) : ℕ :=
  clampIndex env.tuning.length ⌊getRawStringPos env clientY⌋

/-- `calculateRawSemitones(clientX, rect)`: `-999` left of the nut zone,
otherwise the linear map of the playable percentage onto the fret range. -/
def calculateRawSemitones (env : FretEnv) (clientX : ℚ) : ℚ :=
  let relativeX := clientX - env.rect.left
  let percentage := relativeX / env.rect.width * 100
  if percentage < NUT_WIDTH_PERCENT then -999
  else
    let playablePercent := (percentage - NUT_WIDTH_PERCENT) / (100 - NUT_WIDTH_PERCENT)
    playablePercent * env.fretCount

/-- `calculateFreqFromSemitones(stringIndex, semitones)` returns
`baseFreq * 2^(semitones/12)` (and the bare base at the `-999` sentinel,
i.e. exponent `0`), as the exact `Pitch` pair.  The `?.freq || 440`
fallback fires for an out-of-range index (pool frequencies are nonzero,
so `||` only ever sees `undefined`). -/
def calculateFreqFromSemitones (env : FretEnv) (stringIndex : ℕ)
    (semitones : ℚ) : Pitch :=
  let baseFreq := ((env.tuning.get? stringIndex).map StringEntry.freq).getD 440
  if semitones = -999 then { base := baseFreq, semi := 0 }
  else { base := baseFreq, semi := semitones }

/-- `estimateVelocity`: the force/radius extraction from a `Touch` object
produces a raw force (the mouse handlers pass the plain number `0.8`),
which is blended with the sensitivity setting and clamped to
`[0.4, 1.0]`. -/
def estimateVelocity (rawForce sensitivity : ℚ) : ℚ :=
  let scaledVelocity := rawForce * sensitivity + (1 - sensitivity)
  max 0.4 (min 1 scaledVelocity)

/-- The quantization offset of a fresh anchor: `Math.ceil(s) - s` off the
nut, `0` at the `-999` sentinel (the source names the `Math.ceil` result
`nearestSemitone`). -/
def quantOffset (s : ℚ) : ℚ :=
  if s = -999 then 0 else (⌈s⌉ : ℚ) - s

/-- The slide smoothing: `alpha = |new - old| > 0.1 ? 1.0 : 0.5`, then
`new*alpha + old*(1-alpha)`. -/
def smoothSemis (oldRaw newRaw : ℚ) : ℚ :=
  let delta := |newRaw - oldRaw|
  let alpha : ℚ := if delta > 0.1 then 1 else 0.5
  newRaw * alpha + oldRaw * (1 - alpha)

/-- `xPercent`: `Math.max(0, Math.min(100, relativeX / width * 100))`. -/
def xPercentOf (env : FretEnv) (clientX : ℚ) : ℚ :=
  max 0 (min 100 ((clientX - env.rect.left) / env.rect.width * 100))

/-- The NEW INPUT branch of `processInput`. -/
def mkNewTouch (env : FretEnv) (id : ℤ) (clientX clientY rawForce : ℚ)
    (nid : ℕ) (now : ℚ) : TouchData :=
  let stringIndex := getStringIndexFromY env clientY
  let rawSemitones := calculateRawSemitones env clientX
  let startOffset := quantOffset rawSemitones
  let finalSemitones := if rawSemitones = -999 then -999
    else rawSemitones + startOffset
  let freq := calculateFreqFromSemitones env stringIndex finalSemitones
  { touchId := id, stringIndex := stringIndex, freq := freq, noteId := nid
  , startOffset := startOffset
  , velocity := estimateVelocity rawForce env.sensitivity
  , xPercent := xPercentOf env clientX
  , lastMove := now, isTuned := false, rawSemitones := rawSemitones }

/-- The UPDATE EXISTING branch of `processInput`: smoothing, asymmetric
string-crossing hysteresis (`> idx + 1.25` downward, `< idx - 0.25`
upward, new index `= clamp(floor(rawPosition))`), then either the
string-change re-anchor or the same-string slide (whose frequency write
is guarded by `Math.abs(existing.freq - freq) > 0.01`). -/
def updateTouch (env : FretEnv) (G : FreqGuards) (t : TouchData)
    (clientX clientY now : ℚ) : TouchData :=
  let rawSemitones := calculateRawSemitones env clientX
  let xPercent := xPercentOf env clientX
  let smoothed := smoothSemis t.rawSemitones rawSemitones
  let rawPosition := getRawStringPos env clientY
  let proposed : ℤ :=
    if rawPosition > (t.stringIndex : ℚ) + 1.25 then ⌊rawPosition⌋
    else if rawPosition < (t.stringIndex : ℚ) - 0.25 then ⌊rawPosition⌋
    else (t.stringIndex : ℤ)
  let newStringIndex := clampIndex env.tuning.length proposed
  if t.stringIndex ≠ newStringIndex then
    let newStartOffset := quantOffset smoothed
    let finalSemitones := if smoothed = -999 then -999
      else smoothed + newStartOffset
    let freq := calculateFreqFromSemitones env newStringIndex finalSemitones
    { t with stringIndex := newStringIndex, freq := freq
           , startOffset := newStartOffset, rawSemitones := smoothed
           , lastMove := now, isTuned := false, xPercent := xPercent }
  else
    let finalSemitones := if smoothed = -999 then -999
      else smoothed + t.startOffset
    let freq := calculateFreqFromSemitones env newStringIndex finalSemitones
    { t with freq := if G.gt01 t.freq freq then freq else t.freq
           , rawSemitones := smoothed, xPercent := xPercent
           , lastMove := now, isTuned := false }

/-- `processInput(id, clientX, clientY, forceInput, rect)`: create the
pointer on its first sample, update it in place afterwards. -/
def processInput (env : FretEnv) (G : FreqGuards) (st : List TouchData)
    (id : ℤ) (clientX clientY rawForce : ℚ) (nid : ℕ) (now : ℚ) :
    List TouchData :=
  match st.find? (fun t => decide (t.touchId = id)) with
  | none => st ++ [mkNewTouch env id clientX clientY rawForce nid now]
  | some _ => st.map fun t =>
      if t.touchId = id then updateTouch env G t clientX clientY now else t

/-- `TUNE_DELAY = 60` milliseconds. -/
def TUNE_DELAY : ℚ := 60

/-- The auto-tune body of the game loop, per pointer: a pointer that is
not yet tuned and has not moved for more than 60 ms, and whose raw offset
is not the `-999` sentinel, snaps its frequency to the `Math.ceil`
semitone (guarded by `Math.abs(freq - target) > 0.001`) and is marked
tuned; a sentinel pointer is left untouched (not even marked). -/
def autoTuneStep (env : FretEnv) (G : FreqGuards) (now : ℚ)
    (t : TouchData) : TouchData :=
  if t.isTuned = false ∧ TUNE_DELAY < now - t.lastMove then
    if t.rawSemitones = -999 then t
    else
      let nearestSemitone : ℚ := (⌈t.rawSemitones⌉ : ℚ)
      let targetFreq := calculateFreqFromSemitones env t.stringIndex nearestSemitone
      let newOffset := nearestSemitone - t.rawSemitones
      if G.gt001 t.freq targetFreq then
        { t with freq := targetFreq, startOffset := newOffset, isTuned := true }
      else
        { t with isTuned := true }
  else t

/-- The whole auto-tune pass (`touchesRef.current.forEach`). -/
def autoTuneAll (env : FretEnv) (G : FreqGuards) (now : ℚ)
    (st : List TouchData) : List TouchData :=
  st.map (autoTuneStep env G now)

/-! ## Demand resolver (`syncAudioEngine`, step 1) -/

/-- The logical note keys: the source uses the strings `string-${i}`
(monophonic) and `touch-${touchId}` (polyphonic); the two formats are
disjoint and injective in `i` / `touchId`, which this type mirrors. -/
inductive NoteKey where
  | string (i : ℕ)
  | touch (id : ℤ)
deriving DecidableEq, Repr

/-- The effective semitone used by the monophonic arbitration:
`t.rawSemitones === -999 ? -1 : t.rawSemitones`. -/
def effSemi (t : TouchData) : ℚ :=
  if t.rawSemitones = -999 then -1 else t.rawSemitones

/-- One step of the winner scan over the touches of string `i`: the
current winner is replaced only when the candidate is strictly higher
(`if (touchSemi > winnerSemi) winner = touch`). -/
def winStep (i : ℕ) (w : Option TouchData) (t : TouchData) : Option TouchData :=
  if t.stringIndex = i then
    match w with
    | none => some t
    | some v => if effSemi v < effSemi t then some t else some v
  else w

/-- The monophonic winner for string `i`: the fold of `winStep` over the
touches in map-iteration (= insertion) order. -/
def monoWinner (i : ℕ) (ts : List TouchData) : Option TouchData :=
  ts.foldl (winStep i) none

/-- The monophonic demand map: one `string-i` entry per string with a
winner, built by the `for i in 0..n-1` loop (keys are pairwise distinct,
so the `Map.set` calls append). -/
def wantedNotesMono (n : ℕ) (ts : List TouchData) : List (NoteKey × TouchData) :=
  (List.range n).filterMap fun i =>
    (monoWinner i ts).map fun w => (NoteKey.string i, w)

/-- The polyphonic demand map: one `touch-id` entry per pointer. -/
def wantedNotesPoly (ts : List TouchData) : List (NoteKey × TouchData) :=
  ts.map fun t => (NoteKey.touch t.touchId, t)

/-- Fold characterisation of the winner scan, generalised over the
accumulator: the result is on string `i`, dominates the accumulator and
every string-`i` touch scanned, and either is the accumulator itself or
sits at a position strictly dominating everything before it. -/
theorem winAux (i : ℕ) : ∀ (ts : List TouchData) (v : TouchData),
    v.stringIndex = i →
    ∃ w, ts.foldl (winStep i) (some v) = some w ∧ w.stringIndex = i ∧
      effSemi v ≤ effSemi w ∧
      (∀ u ∈ ts, u.stringIndex = i → effSemi u ≤ effSemi w) ∧
      (w = v ∨ (∃ l1 l2, ts = l1 ++ w :: l2 ∧ effSemi v < effSemi w ∧
        ∀ u ∈ l1, u.stringIndex = i → effSemi u < effSemi w)) := by
  intro ts
  induction ts with
  | nil =>
      intro v hv
      exact ⟨v, rfl, hv, le_refl _, by simp, Or.inl rfl⟩
  | cons t ts ih =>
      intro v hv
      by_cases ht : t.stringIndex = i
      · by_cases hlt : effSemi v < effSemi t
        · have hstep : winStep i (some v) t = some t := by
            simp [winStep, ht, hlt]
          obtain ⟨w, hw, hwi, htw, hall, hdec⟩ := ih t ht
          refine ⟨w, ?_, hwi, le_of_lt (lt_of_lt_of_le hlt htw), ?_, ?_⟩
          · simpa [List.foldl_cons, hstep] using hw
          · intro u hu hui
            rcases List.mem_cons.1 hu with rfl | hu
            · exact htw
            · exact hall u hu hui
          · rcases hdec with rfl | ⟨l1, l2, hts, hacc, hstrict⟩
            · exact Or.inr ⟨[], ts, by simp, hlt, by simp⟩
            · refine Or.inr ⟨t :: l1, l2, by rw [hts]; rfl,
                lt_of_lt_of_le hlt htw, ?_⟩
              intro u hu hui
              rcases List.mem_cons.1 hu with rfl | hu
              · exact hacc
              · exact hstrict u hu hui
        · have hstep : winStep i (some v) t = some v := by
            simp [winStep, ht, hlt]
          obtain ⟨w, hw, hwi, hvw, hall, hdec⟩ := ih v hv
          refine ⟨w, ?_, hwi, hvw, ?_, ?_⟩
          · simpa [List.foldl_cons, hstep] using hw
          · intro u hu hui
            rcases List.mem_cons.1 hu with rfl | hu
            · exact le_trans (le_of_not_lt hlt) hvw
            · exact hall u hu hui
          · rcases hdec with rfl | ⟨l1, l2, hts, hvw2, hstrict⟩
            · exact Or.inl rfl
            · refine Or.inr ⟨t :: l1, l2, by rw [hts]; rfl, hvw2, ?_⟩
              intro u hu hui
              rcases List.mem_cons.1 hu with rfl | hu
              · exact lt_of_le_of_lt (le_of_not_lt hlt) hvw2
              · exact hstrict u hu hui
      · have hstep : winStep i (some v) t = some v := by
          simp [winStep, ht]
        obtain ⟨w, hw, hwi, hvw, hall, hdec⟩ := ih v hv
        refine ⟨w, ?_, hwi, hvw, ?_, ?_⟩
        · simpa [List.foldl_cons, hstep] using hw
        · intro u hu hui
          rcases List.mem_cons.1 hu with rfl | hu
          · exact absurd hui ht
          · exact hall u hu hui
        · rcases hdec with rfl | ⟨l1, l2, hts, hvw2, hstrict⟩
          · exact Or.inl rfl
          · refine Or.inr ⟨t :: l1, l2, by rw [hts]; rfl, hvw2, ?_⟩
            intro u hu hui
            rcases List.mem_cons.1 hu with rfl | hu
            · exact absurd hui ht
            · exact hstrict u hu hui

/-- The winner for string `i` is `none` exactly when no touch is on
string `i`; otherwise it is a string-`i` touch dominating all of them
and strictly dominating every earlier one (first wins ties). -/
theorem monoWinner_cases (i : ℕ) : ∀ ts : List TouchData,
    (monoWinner i ts = none ∧ ∀ t ∈ ts, t.stringIndex ≠ i) ∨
    (∃ w l1 l2, monoWinner i ts = some w ∧ w.stringIndex = i ∧
      ts = l1 ++ w :: l2 ∧
      (∀ u ∈ ts, u.stringIndex = i → effSemi u ≤ effSemi w) ∧
      (∀ u ∈ l1, u.stringIndex = i → effSemi u < effSemi w)) := by
  intro ts
  induction ts with
  | nil => exact Or.inl ⟨rfl, by simp⟩
  | cons t ts ih =>
      by_cases ht : t.stringIndex = i
      · obtain ⟨w, hw, hwi, htw, hall, hdec⟩ := winAux i ts t ht
        have hfold : monoWinner i (t :: ts) = some w := by
          have hstep : winStep i none t = some t := by simp [winStep, ht]
          simpa [monoWinner, List.foldl_cons, hstep] using hw
        refine Or.inr ?_
        rcases hdec with rfl | ⟨l1, l2, hts, hacc, hstrict⟩
        · refine ⟨w, [], ts, hfold, hwi, by simp, ?_, by simp⟩
          intro u hu hui
          rcases List.mem_cons.1 hu with rfl | hu
          · exact le_refl _
          · exact hall u hu hui
        · refine ⟨w, t :: l1, l2, hfold, hwi, by rw [hts]; rfl, ?_, ?_⟩
          · intro u hu hui
            rcases List.mem_cons.1 hu with rfl | hu
            · exact htw
            · exact hall u hu hui
          · intro u hu hui
            rcases List.mem_cons.1 hu with rfl | hu
            · exact hacc
            · exact hstrict u hu hui
      · have hstep : winStep i none t = none := by simp [winStep, ht]
        have hfold : monoWinner i (t :: ts) = monoWinner i ts := by
          simp [monoWinner, List.foldl_cons, hstep]
        rcases ih with ⟨hnone, hni⟩ | ⟨w, l1, l2, hsome, hwi, hts, hall, hstrict⟩
        · refine Or.inl ⟨by rw [hfold]; exact hnone, ?_⟩
          intro u hu
          rcases List.mem_cons.1 hu with rfl | hu
          · exact ht
          · exact hni u hu
        · refine Or.inr ⟨w, t :: l1, l2, by rw [hfold]; exact hsome, hwi,
            by rw [hts]; rfl, ?_, ?_⟩
          · intro u hu hui
            rcases List.mem_cons.1 hu with rfl | hu
            · exact absurd hui ht
            · exact hall u hu hui
          · intro u hu hui
            rcases List.mem_cons.1 hu with rfl | hu
            · exact absurd hui ht
            · exact hstrict u hu hui

/-- The demand map holds one `string-i` entry when string `i` has a
winner and none otherwise. -/
theorem countP_wantedMono (ts : List TouchData) (i : ℕ) : ∀ n : ℕ,
    (wantedNotesMono n ts).countP (fun e => decide (e.1 = NoteKey.string i)) =
      if i < n ∧ (monoWinner i ts).isSome then 1 else 0 := by
  intro n
  induction n with
  | zero => simp [wantedNotesMono]
  | succ n ih =>
      have happ : wantedNotesMono (n + 1) ts =
          wantedNotesMono n ts ++
            (List.filterMap (fun j => (monoWinner j ts).map
              fun w => (NoteKey.string j, w)) [n]) := by
        unfold wantedNotesMono
        rw [List.range_succ, List.filterMap_append]
      rw [happ, List.countP_append, ih]
      cases hm : monoWinner n ts with
      | none =>
          have htail : List.filterMap (fun j => (monoWinner j ts).map
              fun w => (NoteKey.string j, w)) [n] = [] := by
            simp [hm]
          rw [htail]
          simp only [List.countP_nil]
          rcases Nat.lt_trichotomy i n with h | rfl | h
          · have h1 : i < n + 1 := by omega
            simp [h, h1]
          · simp [hm, Nat.lt_irrefl]
          · have h1 : ¬ i < n := by omega
            have h2 : ¬ i < n + 1 := by omega
            simp [h1, h2]
      | some w =>
          have htail : List.filterMap (fun j => (monoWinner j ts).map
              fun w => (NoteKey.string j, w)) [n] = [(NoteKey.string n, w)] := by
            simp [hm]
          rw [htail]
          rcases Nat.lt_trichotomy i n with h | rfl | h
          · have h1 : i < n + 1 := by omega
            have hne : NoteKey.string n ≠ NoteKey.string i := by
              intro hc
              cases hc
              omega
            simp [h, h1, List.countP_cons, hne]
          · simp [List.countP_cons, hm, Nat.lt_irrefl, Nat.lt_succ_self]
          · have h1 : ¬ i < n := by omega
            have h2 : ¬ i < n + 1 := by omega
            have hne : NoteKey.string n ≠ NoteKey.string i := by
              intro hc
              cases hc
              omega
            simp [h1, h2, List.countP_cons, hne]

/-- C2: in monophonic mode, for every string `i` in range, the demand map
holds exactly one `string-i` entry iff some pointer is on string `i`; its
winner is a pointer on string `i` whose effective semitone (sentinel
`-999` read as `-1`) dominates every pointer on that string, and every
earlier pointer in iteration order is strictly lower — so ties keep the
first. -/
theorem mono_demand_spec (n : ℕ) (ts : List TouchData) (i : ℕ) (hi : i < n) :
    ((wantedNotesMono n ts).countP (fun e => decide (e.1 = NoteKey.string i)) = 1 ↔
      ∃ t ∈ ts, t.stringIndex = i) ∧
    (∀ w, monoWinner i ts = some w →
      (NoteKey.string i, w) ∈ wantedNotesMono n ts ∧
      w ∈ ts ∧ w.stringIndex = i ∧
      (∀ u ∈ ts, u.stringIndex = i → effSemi u ≤ effSemi w) ∧
      ∃ l1 l2, ts = l1 ++ w :: l2 ∧
        ∀ u ∈ l1, u.stringIndex = i → effSemi u < effSemi w) := by
  constructor
  · rw [countP_wantedMono]
    rcases monoWinner_cases i ts with ⟨hnone, hni⟩ |
      ⟨w, l1, l2, hsome, hwi, hts, hall, hstrict⟩
    · constructor
      · intro h
        rw [hnone] at h
        simp [hi] at h
      · rintro ⟨t, ht, hti⟩
        exact absurd hti (hni t ht)
    · constructor
      · intro _
        refine ⟨w, ?_, hwi⟩
        rw [hts]
        exact List.mem_append_right _ (List.mem_cons_self _ _)
      · intro _
        rw [hsome]
        simp [hi]
  · intro w hw
    rcases monoWinner_cases i ts with ⟨hnone, _⟩ |
      ⟨w', l1, l2, hsome, hwi, hts, hall, hstrict⟩
    · rw [hnone] at hw
      cases hw
    · rw [hsome] at hw
      injection hw with hww
      subst hww
      refine ⟨?_, ?_, hwi, hall, l1, l2, hts, hstrict⟩
      · apply List.mem_filterMap.2
        refine ⟨i, List.mem_range.2 hi, ?_⟩
        rw [hsome]
        rfl
      · rw [hts]
        exact List.mem_append_right _ (List.mem_cons_self _ _)

/-- Two sample pointers on string `0` with equal effective semitones, for
the C2 witness (the tie is kept by the first). -/
def touchA : TouchData :=
  { touchId := 1, stringIndex := 0, freq := ⟨98, 2⟩, noteId := 1
  , startOffset := 0, velocity := 1, xPercent := 50, lastMove := 0
  , isTuned := true, rawSemitones := 2 }

/-- Second sample pointer, same string, same effective semitone. -/
def touchB : TouchData :=
  { touchA with touchId := 2, noteId := 2 }

/-- Witness for C2 on two equal-pitch pointers on string `0` of a
one-string demand map. -/
theorem mono_demand_spec_witness :
    (0 : ℕ) < 1 ∧
    (((wantedNotesMono 1 [touchA, touchB]).countP
        (fun e => decide (e.1 = NoteKey.string 0)) = 1 ↔
      ∃ t ∈ [touchA, touchB], t.stringIndex = 0) ∧
    (∀ w, monoWinner 0 [touchA, touchB] = some w →
      (NoteKey.string 0, w) ∈ wantedNotesMono 1 [touchA, touchB] ∧
      w ∈ [touchA, touchB] ∧ w.stringIndex = 0 ∧
      (∀ u ∈ [touchA, touchB], u.stringIndex = 0 → effSemi u ≤ effSemi w) ∧
      ∃ l1 l2, [touchA, touchB] = l1 ++ w :: l2 ∧
        ∀ u ∈ l1, u.stringIndex = 0 → effSemi u < effSemi w)) :=
  ⟨by decide, mono_demand_spec 1 [touchA, touchB] 0 (by decide)⟩

/-- From the claim's words only (refinement comparison): "the nearest
integer semitone to s", i.e. rounding to the nearest integer.  The source
instead uses `Math.ceil`; `quantization_rounds_up_cex` separates the two. -/
def specNearestSemitone (s : ℚ) : ℤ := round s

/-- A concrete input context for counterexamples and witnesses: a
100 x 180 rect at the origin, a narrow window (padding 40), the default
6-string tuning, 12 frets. -/
def sampleEnv : FretEnv :=
  { rect := { left := 0, top := 0, width := 100, height := 180 }
  , innerWidth := 500, tuning := getTuning 6, fretCount := 12
  , sensitivity := 1/2 }

/-- C3 counterexample: a fresh pointer at raw offset `s = 1/5` (right of
the nut).  The nearest integer semitone is `0`, but the code anchors on
`Math.ceil(s) = 1`: the initial frequency is `base * 2^(1/12)`, not
`base * 2^(0/12)` (with equal positive bases, distinct `Pitch.semi`
values are distinct real frequencies). -/
theorem quantization_rounds_up_cex :
    calculateRawSemitones sampleEnv (8 + 23/15) = 1/5 ∧
    specNearestSemitone (1/5) = 0 ∧
    processInput sampleEnv exactGuards [] 1 (8 + 23/15) 50 (4/5) 7 0 =
      [mkNewTouch sampleEnv 1 (8 + 23/15) 50 (4/5) 7 0] ∧
    (mkNewTouch sampleEnv 1 (8 + 23/15) 50 (4/5) 7 0).freq.semi = 1 ∧
    (mkNewTouch sampleEnv 1 (8 + 23/15) 50 (4/5) 7 0).freq.semi ≠
      ((specNearestSemitone (1/5) : ℤ) : ℚ) := by
  have hceilv : (⌈(1 : ℚ)/5⌉ : ℤ) = 1 := by
    rw [Int.ceil_eq_iff] <;> norm_num
  have hraw : calculateRawSemitones sampleEnv (8 + 23/15) = 1/5 := by
    norm_num [calculateRawSemitones, sampleEnv, NUT_WIDTH_PERCENT]
  have hround : specNearestSemitone (1/5) = 0 := by
    norm_num [specNearestSemitone, round_eq]
  have hfreq : (mkNewTouch sampleEnv 1 (8 + 23/15) 50 (4/5) 7 0).freq.semi = 1 := by
    simp only [mkNewTouch, quantOffset, hraw, calculateFreqFromSemitones]
    norm_num [hceilv]
  refine ⟨hraw, hround, ?_, hfreq, ?_⟩
  · simp [processInput]
  · rw [hfreq, hround]
    norm_num

/-- C3 (amended): a fresh pointer landing right of the nut with raw
offset `s` is appended and anchored exactly on the ceiling semitone
`⌈s⌉`, i.e. frequency `base * 2^(⌈s⌉/12)`; a pointer idle for more than
60 ms with non-sentinel raw offset is marked quantized, and its frequency
is snapped to the ceiling-semitone pitch of its current raw offset
whenever the two differ by more than 0.001 (and kept otherwise); in
particular a pointer that never moved after landing, whose frequency
already equals that pitch, ends exactly on it (using only that
`|x - x| > 0.001` is false). -/
theorem quantization_ceil_spec (env : FretEnv) (G : FreqGuards)
    (st : List TouchData) (id : ℤ) (cx cy rawForce : ℚ) (nid : ℕ) (now : ℚ)
    (hnew : st.find? (fun u => decide (u.touchId = id)) = none)
    (hraw : calculateRawSemitones env cx ≠ -999)
    (hceil : ((⌈calculateRawSemitones env cx⌉ : ℤ) : ℚ) ≠ -999) :
    processInput env G st id cx cy rawForce nid now =
      st ++ [mkNewTouch env id cx cy rawForce nid now] ∧
    (mkNewTouch env id cx cy rawForce nid now).freq =
      calculateFreqFromSemitones env (getStringIndexFromY env cy)
        ((⌈calculateRawSemitones env cx⌉ : ℤ) : ℚ) ∧
    (∀ u : TouchData, u.isTuned = false → TUNE_DELAY < now - u.lastMove →
      u.rawSemitones ≠ -999 →
      (autoTuneStep env G now u).isTuned = true ∧
      (G.gt001 u.freq
          (calculateFreqFromSemitones env u.stringIndex ((⌈u.rawSemitones⌉ : ℤ) : ℚ)) = true →
        (autoTuneStep env G now u).freq =
          calculateFreqFromSemitones env u.stringIndex ((⌈u.rawSemitones⌉ : ℤ) : ℚ) ∧
        (autoTuneStep env G now u).startOffset =
          ((⌈u.rawSemitones⌉ : ℤ) : ℚ) - u.rawSemitones) ∧
      (G.gt001 u.freq
          (calculateFreqFromSemitones env u.stringIndex ((⌈u.rawSemitones⌉ : ℤ) : ℚ)) = false →
        (autoTuneStep env G now u).freq = u.freq)) ∧
    ((∀ p : Pitch, G.gt001 p p = false) → ∀ now2 : ℚ, TUNE_DELAY < now2 - now →
      (autoTuneStep env G now2 (mkNewTouch env id cx cy rawForce nid now)).freq =
        calculateFreqFromSemitones env (getStringIndexFromY env cy)
          ((⌈calculateRawSemitones env cx⌉ : ℤ) : ℚ) ∧
      (autoTuneStep env G now2 (mkNewTouch env id cx cy rawForce nid now)).isTuned
        = true) := by
  have hfinal : (if calculateRawSemitones env cx = -999 then (-999 : ℚ)
      else calculateRawSemitones env cx + quantOffset (calculateRawSemitones env cx)) =
      ((⌈calculateRawSemitones env cx⌉ : ℤ) : ℚ) := by
    rw [if_neg hraw]
    unfold quantOffset
    rw [if_neg hraw]
    ring
  have hfreq : (mkNewTouch env id cx cy rawForce nid now).freq =
      calculateFreqFromSemitones env (getStringIndexFromY env cy)
        ((⌈calculateRawSemitones env cx⌉ : ℤ) : ℚ) := by
    simp only [mkNewTouch]
    rw [hfinal]
  have hstep : ∀ (nw : ℚ) (u : TouchData), u.isTuned = false →
      TUNE_DELAY < nw - u.lastMove → u.rawSemitones ≠ -999 →
      (autoTuneStep env G nw u).isTuned = true ∧
      (G.gt001 u.freq
          (calculateFreqFromSemitones env u.stringIndex ((⌈u.rawSemitones⌉ : ℤ) : ℚ)) = true →
        (autoTuneStep env G nw u).freq =
          calculateFreqFromSemitones env u.stringIndex ((⌈u.rawSemitones⌉ : ℤ) : ℚ) ∧
        (autoTuneStep env G nw u).startOffset =
          ((⌈u.rawSemitones⌉ : ℤ) : ℚ) - u.rawSemitones) ∧
      (G.gt001 u.freq
          (calculateFreqFromSemitones env u.stringIndex ((⌈u.rawSemitones⌉ : ℤ) : ℚ)) = false →
        (autoTuneStep env G nw u).freq = u.freq) := by
    intro nw u hu hidle hus
    have hcond : u.isTuned = false ∧ TUNE_DELAY < nw - u.lastMove := ⟨hu, hidle⟩
    cases hg : G.gt001 u.freq
        (calculateFreqFromSemitones env u.stringIndex ((⌈u.rawSemitones⌉ : ℤ) : ℚ)) with
    | true =>
        refine ⟨?_, ?_, ?_⟩
        · simp [autoTuneStep, hcond, hus, hg]
        · intro hc
          constructor <;> simp [autoTuneStep, hcond, hus, hg]
        · intro hc
          simp at hc
    | false =>
        refine ⟨?_, ?_, ?_⟩
        · simp [autoTuneStep, hcond, hus, hg]
        · intro hc
          simp at hc
        · intro hc
          simp [autoTuneStep, hcond, hus, hg]
  refine ⟨by simp [processInput, hnew], hfreq, hstep now, ?_⟩
  intro hirr now2 hlate
  have htuned : (mkNewTouch env id cx cy rawForce nid now).isTuned = false := rfl
  have hlast : (mkNewTouch env id cx cy rawForce nid now).lastMove = now := rfl
  have hraws : (mkNewTouch env id cx cy rawForce nid now).rawSemitones =
      calculateRawSemitones env cx := rfl
  have hidx : (mkNewTouch env id cx cy rawForce nid now).stringIndex =
      getStringIndexFromY env cy := rfl
  have hidle : TUNE_DELAY < now2 - (mkNewTouch env id cx cy rawForce nid now).lastMove := by
    rw [hlast]
    exact hlate
  have hus : (mkNewTouch env id cx cy rawForce nid now).rawSemitones ≠ -999 := by
    rw [hraws]
    exact hraw
  obtain ⟨h1, _, h3⟩ := hstep now2 (mkNewTouch env id cx cy rawForce nid now)
    htuned hidle hus
  have hgg : G.gt001 (mkNewTouch env id cx cy rawForce nid now).freq
      (calculateFreqFromSemitones env
        (mkNewTouch env id cx cy rawForce nid now).stringIndex
        ((⌈(mkNewTouch env id cx cy rawForce nid now).rawSemitones⌉ : ℤ) : ℚ)) = false := by
    rw [hidx, hraws, hfreq]
    exact hirr _
  exact ⟨by rw [h3 hgg]; exact hfreq, h1⟩

/-- C3 (amended): a fresh pointer landing right of the nut with raw
offset `s` is appended and anchored exactly on the ceiling semitone
`⌈s⌉`, i.e. frequency `base * 2^(⌈s⌉/12)`; a pointer idle for more than
60 ms with non-sentinel raw offset is marked quantized, and its frequency
is snapped to the ceiling-semitone pitch of its current raw offset
whenever the two differ by more than 0.001 (and kept otherwise); in
particular a pointer that never moved after landing, whose frequency
already equals that pitch, ends exactly on it (using only that
`|x - x| > 0.001` is false). -/
theorem quantization_ceil_spec_witness :
    List.find? (fun u => decide (u.touchId = 1)) ([] : List TouchData) = none ∧
    calculateRawSemitones sampleEnv (8 + 23/15) ≠ -999 ∧
    ((⌈calculateRawSemitones sampleEnv (8 + 23/15)⌉ : ℤ) : ℚ) ≠ -999 ∧
    (processInput sampleEnv exactGuards [] 1 (8 + 23/15) 50 (4/5) 7 0 =
      [] ++ [mkNewTouch sampleEnv 1 (8 + 23/15) 50 (4/5) 7 0] ∧
    (mkNewTouch sampleEnv 1 (8 + 23/15) 50 (4/5) 7 0).freq =
      calculateFreqFromSemitones sampleEnv (getStringIndexFromY sampleEnv 50)
        ((⌈calculateRawSemitones sampleEnv (8 + 23/15)⌉ : ℤ) : ℚ) ∧
    (∀ u : TouchData, u.isTuned = false → TUNE_DELAY < 0 - u.lastMove →
      u.rawSemitones ≠ -999 →
      (autoTuneStep sampleEnv exactGuards 0 u).isTuned = true ∧
      (exactGuards.gt001 u.freq
          (calculateFreqFromSemitones sampleEnv u.stringIndex
            ((⌈u.rawSemitones⌉ : ℤ) : ℚ)) = true →
        (autoTuneStep sampleEnv exactGuards 0 u).freq =
          calculateFreqFromSemitones sampleEnv u.stringIndex
            ((⌈u.rawSemitones⌉ : ℤ) : ℚ) ∧
        (autoTuneStep sampleEnv exactGuards 0 u).startOffset =
          ((⌈u.rawSemitones⌉ : ℤ) : ℚ) - u.rawSemitones) ∧
      (exactGuards.gt001 u.freq
          (calculateFreqFromSemitones sampleEnv u.stringIndex
            ((⌈u.rawSemitones⌉ : ℤ) : ℚ)) = false →
        (autoTuneStep sampleEnv exactGuards 0 u).freq = u.freq)) ∧
    ((∀ p : Pitch, exactGuards.gt001 p p = false) → ∀ now2 : ℚ,
      TUNE_DELAY < now2 - 0 →
      (autoTuneStep sampleEnv exactGuards now2
          (mkNewTouch sampleEnv 1 (8 + 23/15) 50 (4/5) 7 0)).freq =
        calculateFreqFromSemitones sampleEnv (getStringIndexFromY sampleEnv 50)
          ((⌈calculateRawSemitones sampleEnv (8 + 23/15)⌉ : ℤ) : ℚ) ∧
      (autoTuneStep sampleEnv exactGuards now2
          (mkNewTouch sampleEnv 1 (8 + 23/15) 50 (4/5) 7 0)).isTuned = true)) := by
  have hraw : calculateRawSemitones sampleEnv (8 + 23/15) = 1/5 := by
    norm_num [calculateRawSemitones, sampleEnv, NUT_WIDTH_PERCENT]
  have hceil1 : (⌈(1 : ℚ)/5⌉ : ℤ) = 1 := by
    rw [Int.ceil_eq_iff] <;> norm_num
  have h2 : calculateRawSemitones sampleEnv (8 + 23/15) ≠ -999 := by
    rw [hraw]
    norm_num
  have h3 : ((⌈calculateRawSemitones sampleEnv (8 + 23/15)⌉ : ℤ) : ℚ) ≠ -999 := by
    rw [hraw, hceil1]
    norm_num
  exact ⟨rfl, h2, h3,
    quantization_ceil_spec sampleEnv exactGuards [] 1 (8 + 23/15) 50 (4/5) 7 0
      rfl h2 h3⟩

/-- `updateTouch` never changes the pointer id. -/
theorem updateTouch_touchId (env : FretEnv) (G : FreqGuards) (t : TouchData)
    (cx cy now : ℚ) : (updateTouch env G t cx cy now).touchId = t.touchId := by
  simp only [updateTouch]
  repeat' split
  all_goals rfl

/-- Clamping an in-range index is the identity. -/
theorem clampIndex_self (n idx : ℕ) (h : idx < n) :
    clampIndex n (idx : ℤ) = idx := by
  unfold clampIndex
  omega

/-- C7 (amended): a moving pointer's string index changes only when the
raw lane position exceeds the current index by more than 1.25 lanes or
falls more than 0.25 lanes below it; when that hysteresis condition
fires, the new index is the clamped floor of the raw position, and when
that clamped floor differs from the current index a fresh quantization
offset is recomputed from the smoothed offset exactly as for a new
pointer and the quantized flag is reset. -/
theorem string_crossing_spec (env : FretEnv) (G : FreqGuards) (t : TouchData)
    (cx cy now : ℚ) (hidx : t.stringIndex < env.tuning.length) :
    (¬ getRawStringPos env cy > (t.stringIndex : ℚ) + 1.25 →
      ¬ getRawStringPos env cy < (t.stringIndex : ℚ) - 0.25 →
      (updateTouch env G t cx cy now).stringIndex = t.stringIndex) ∧
    ((getRawStringPos env cy > (t.stringIndex : ℚ) + 1.25 ∨
        getRawStringPos env cy < (t.stringIndex : ℚ) - 0.25) →
      (updateTouch env G t cx cy now).stringIndex =
        clampIndex env.tuning.length ⌊getRawStringPos env cy⌋ ∧
      (clampIndex env.tuning.length ⌊getRawStringPos env cy⌋ ≠ t.stringIndex →
        (updateTouch env G t cx cy now).startOffset =
          quantOffset (smoothSemis t.rawSemitones (calculateRawSemitones env cx)) ∧
        (updateTouch env G t cx cy now).isTuned = false)) := by
  constructor
  · intro h1 h2
    simp only [updateTouch]
    rw [if_neg h1, if_neg h2, clampIndex_self _ _ hidx]
    simp
  · intro hcross
    have hprop : (if getRawStringPos env cy > (t.stringIndex : ℚ) + 1.25
        then ⌊getRawStringPos env cy⌋
        else if getRawStringPos env cy < (t.stringIndex : ℚ) - 0.25
        then ⌊getRawStringPos env cy⌋
        else (t.stringIndex : ℤ)) = ⌊getRawStringPos env cy⌋ := by
      rcases hcross with h | h
      · rw [if_pos h]
      · by_cases h1 : getRawStringPos env cy > (t.stringIndex : ℚ) + 1.25
        · rw [if_pos h1]
        · rw [if_neg h1, if_pos h]
    constructor
    · simp only [updateTouch]
      rw [hprop]
      by_cases hne : t.stringIndex =
          clampIndex env.tuning.length ⌊getRawStringPos env cy⌋
      · rw [if_neg (not_not_intro hne)]
        simpa using hne
      · rw [if_pos hne]
    · intro hne2
      simp only [updateTouch]
      rw [hprop, if_pos (Ne.symm hne2)]
      constructor <;> rfl

/-- A pointer on string 0 holding a non-trivial quantization offset, for
the C7 counterexample. -/
def touchC : TouchData :=
  { touchId := 3, stringIndex := 0, freq := { base := 130.81, semi := 3 }
  , noteId := 3, startOffset := 7/10, velocity := 1, xPercent := 50
  , lastMove := 0, isTuned := true, rawSemitones := 3 }

/-- C7 counterexample: at raw lane position `-9/10` the upward hysteresis
condition fires (`-9/10 < 0 - 0.25`), but the clamped floor is again
string 0, so the slide branch runs and the pointer's quantization offset
stays `7/10` instead of the freshly recomputed `0`. -/
theorem string_crossing_cex :
    getRawStringPos sampleEnv 25 < (touchC.stringIndex : ℚ) - 0.25 ∧
    quantOffset (smoothSemis touchC.rawSemitones (calculateRawSemitones sampleEnv 54)) = 0 ∧
    (updateTouch sampleEnv exactGuards touchC 54 25 1).startOffset = 7/10 ∧
    (updateTouch sampleEnv exactGuards touchC 54 25 1).startOffset ≠
      quantOffset (smoothSemis touchC.rawSemitones (calculateRawSemitones sampleEnv 54)) := by
  have hlen6 : (getTuning 6).length = 6 := rfl
  have hraw : getRawStringPos sampleEnv 25 = -9/10 := by
    norm_num [getRawStringPos, getVerticalPadding, sampleEnv, hlen6]
  have hcalc : calculateRawSemitones sampleEnv 54 = 6 := by
    norm_num [calculateRawSemitones, sampleEnv, NUT_WIDTH_PERCENT]
  have hsm : smoothSemis (3 : ℚ) 6 = 6 := by
    norm_num [smoothSemis]
  have hceil6 : (⌈(6 : ℚ)⌉ : ℤ) = 6 := by
    rw [Int.ceil_eq_iff] <;> norm_num
  have hq : quantOffset (6 : ℚ) = 0 := by
    norm_num [quantOffset, hceil6]
  have hfloor : ⌊(-9 : ℚ)/10⌋ = -1 := by
    rw [Int.floor_eq_iff] <;> norm_num
  have hsm2 : smoothSemis touchC.rawSemitones (calculateRawSemitones sampleEnv 54) = 6 := by
    rw [show touchC.rawSemitones = (3 : ℚ) from rfl, hcalc, hsm]
  have hc1 : ¬ ((-9 : ℚ)/10 > (touchC.stringIndex : ℚ) + 1.25) := by
    norm_num [touchC]
  have hc2 : (-9 : ℚ)/10 < (touchC.stringIndex : ℚ) - 0.25 := by
    norm_num [touchC]
  have hupd : (updateTouch sampleEnv exactGuards touchC 54 25 1).startOffset = 7/10 := by
    simp only [updateTouch, hraw, hsm2]
    rw [if_neg hc1, if_pos hc2, hfloor]
    rw [show clampIndex sampleEnv.tuning.length (-1) = 0 from rfl]
    rw [if_neg (not_not_intro (show touchC.stringIndex = 0 from rfl))]
    rfl
  refine ⟨by rw [hraw]; exact hc2, by rw [hsm2]; exact hq, hupd, ?_⟩
  rw [hupd, hsm2, hq]
  norm_num

/-- C7 (amended): a moving pointer's string index changes only when the
raw lane position exceeds the current index by more than 1.25 lanes or
falls more than 0.25 lanes below it; when that hysteresis condition
fires, the new index is the clamped floor of the raw position, and when
that clamped floor differs from the current index a fresh quantization
offset is recomputed from the smoothed offset exactly as for a new
pointer and the quantized flag is reset. -/
theorem string_crossing_spec_witness :
    touchC.stringIndex < sampleEnv.tuning.length ∧
    ((¬ getRawStringPos sampleEnv 25 > (touchC.stringIndex : ℚ) + 1.25 →
      ¬ getRawStringPos sampleEnv 25 < (touchC.stringIndex : ℚ) - 0.25 →
      (updateTouch sampleEnv exactGuards touchC 54 25 1).stringIndex =
        touchC.stringIndex) ∧
    ((getRawStringPos sampleEnv 25 > (touchC.stringIndex : ℚ) + 1.25 ∨
        getRawStringPos sampleEnv 25 < (touchC.stringIndex : ℚ) - 0.25) →
      (updateTouch sampleEnv exactGuards touchC 54 25 1).stringIndex =
        clampIndex sampleEnv.tuning.length ⌊getRawStringPos sampleEnv 25⌋ ∧
      (clampIndex sampleEnv.tuning.length ⌊getRawStringPos sampleEnv 25⌋ ≠
          touchC.stringIndex →
        (updateTouch sampleEnv exactGuards touchC 54 25 1).startOffset =
          quantOffset (smoothSemis touchC.rawSemitones
            (calculateRawSemitones sampleEnv 54)) ∧
        (updateTouch sampleEnv exactGuards touchC 54 25 1).isTuned = false))) :=
  ⟨by show (0 : ℕ) < 6; norm_num,
    string_crossing_spec sampleEnv exactGuards touchC 54 25 1
      (by show (0 : ℕ) < 6; norm_num)⟩

/-- One contact of a native touch event batch (`e.touches[i]`): its
identifier, client coordinates, and the raw force its pressure/radius
fields reduce to. -/
structure TouchPoint where
  id : ℤ
  clientX : ℚ
  clientY : ℚ
  rawForce : ℚ
deriving DecidableEq, Repr

/-- `handleNativeTouch`: under an open menu nothing happens; otherwise
every batch contact is processed through `processInput`, then every
tracked pointer whose id is absent from the batch — except `MOUSE_ID` —
is deleted. -/
def handleNativeTouch (env : FretEnv) (G : FreqGuards) (menuOpen : Bool)
    (nidOf : ℤ → ℕ) (now : ℚ) (st : List TouchData) (batch : List TouchPoint) :
    List TouchData :=
  if menuOpen then st
  else
    let st1 := batch.foldl (fun m tp =>
      processInput env G m tp.id tp.clientX tp.clientY tp.rawForce (nidOf tp.id) now) st
    st1.filter fun t =>
      batch.any (fun tp => decide (tp.id = t.touchId)) || decide (t.touchId = MOUSE_ID)

/-- `handleMouseDown`: press the button and process a `MOUSE_ID` sample
with default velocity input 0.8. -/
def handleMouseDown (env : FretEnv) (G : FreqGuards) (menuOpen mouseDown : Bool)
    (nid : ℕ) (now : ℚ) (st : List TouchData) (cx cy : ℚ) :
    Bool × List TouchData :=
  if menuOpen then (mouseDown, st)
  else (true, processInput env G st MOUSE_ID cx cy 0.8 nid now)

/-- `handleMouseMove`: only while the button is pressed and the menu is
closed. -/
def handleMouseMove (env : FretEnv) (G : FreqGuards) (menuOpen mouseDown : Bool)
    (nid : ℕ) (now : ℚ) (st : List TouchData) (cx cy : ℚ) :
    Bool × List TouchData :=
  if ¬ mouseDown ∨ menuOpen then (mouseDown, st)
  else (mouseDown, processInput env G st MOUSE_ID cx cy 0.8 nid now)

/-- `handleMouseUp`: if the button was pressed, release it and delete the
`MOUSE_ID` pointer. -/
def handleMouseUp (mouseDown : Bool) (st : List TouchData) :
    Bool × List TouchData :=
  if mouseDown then (false, st.filter fun t => decide (t.touchId ≠ MOUSE_ID))
  else (mouseDown, st)

/-- `handleMouseLeave`: same cleanup as `handleMouseUp` when the cursor
leaves the surface while pressed. -/
def handleMouseLeave (mouseDown : Bool) (st : List TouchData) :
    Bool × List TouchData :=
  if mouseDown then (false, st.filter fun t => decide (t.touchId ≠ MOUSE_ID))
  else (mouseDown, st)

/-- `find?` commutes with a map that preserves the predicate. -/
theorem find?_map_pres (st : List TouchData) (f : TouchData → TouchData)
    (p : TouchData → Bool) (hf : ∀ t, p (f t) = p t) :
    (st.map f).find? p = (st.find? p).map f := by
  induction st with
  | nil => rfl
  | cons a st ih =>
      cases hp : p a with
      | true => simp [List.find?_cons, hf a, hp]
      | false => simp [List.find?_cons, hf a, hp, ih]

/-- Appending an element that fails the predicate leaves `find?` alone. -/
theorem find?_append_single (st : List TouchData) (tp : TouchData)
    (p : TouchData → Bool) (hp : p tp = false) :
    (st ++ [tp]).find? p = st.find? p := by
  induction st with
  | nil => simp [List.find?, hp]
  | cons a st ih =>
      cases hpa : p a with
      | true => simp [List.find?_cons, hpa]
      | false => simp [List.find?_cons, hpa, ih]

/-- The per-element update of `processInput`'s map branch preserves ids. -/
theorem processInput_touchId_pres (env : FretEnv) (G : FreqGuards) (id : ℤ)
    (cx cy now : ℚ) (t : TouchData) :
    (if t.touchId = id then updateTouch env G t cx cy now else t).touchId
      = t.touchId := by
  by_cases h : t.touchId = id
  · rw [if_pos h, updateTouch_touchId]
  · rw [if_neg h]

/-- `processInput` for pointer `id` does not disturb any other pointer's
entry. -/
theorem processInput_find?_ne (env : FretEnv) (G : FreqGuards)
    (st : List TouchData) (id : ℤ) (cx cy rawForce : ℚ) (nid : ℕ) (now : ℚ)
    (j : ℤ) (hne : j ≠ id) :
    (processInput env G st id cx cy rawForce nid now).find?
      (fun t => decide (t.touchId = j)) =
    st.find? (fun t => decide (t.touchId = j)) := by
  unfold processInput
  cases hfind : st.find? (fun t => decide (t.touchId = id)) with
  | none =>
      apply find?_append_single
      simp [mkNewTouch, hne.symm]
  | some a =>
      rw [find?_map_pres _ _ _ (fun t => by
        simp only [processInput_touchId_pres env G id cx cy now t])]
      cases hres : st.find? (fun t => decide (t.touchId = j)) with
      | none => rfl
      | some b =>
          have hb : b.touchId = j := by
            have := List.find?_some hres
            simpa using this
          have hbid : ¬ b.touchId = id := by
            rw [hb]
            exact hne
          simp [Option.map_some, if_neg hbid]

/-- `processInput` never removes a tracked pointer. -/
theorem processInput_find?_isSome (env : FretEnv) (G : FreqGuards)
    (st : List TouchData) (id : ℤ) (cx cy rawForce : ℚ) (nid : ℕ) (now : ℚ)
    (j : ℤ)
    (h : (st.find? (fun t => decide (t.touchId = j))).isSome = true) :
    ((processInput env G st id cx cy rawForce nid now).find?
      (fun t => decide (t.touchId = j))).isSome = true := by
  by_cases hne : j = id
  · subst hne
    unfold processInput
    cases hfind : st.find? (fun t => decide (t.touchId = j)) with
    | none => rw [hfind] at h; cases h
    | some a =>
        rw [find?_map_pres _ _ _ (fun t => by
          simp only [processInput_touchId_pres env G j cx cy now t])]
        rw [hfind]
        rfl
  · rw [processInput_find?_ne env G st id cx cy rawForce nid now j hne]
    exact h

/-- Filtering with a predicate that rejects every id-`j` element removes
the `j` entry. -/
theorem find?_filter_none (l : List TouchData) (q : TouchData → Bool) (j : ℤ)
    (h : ∀ t, t.touchId = j → q t = false) :
    (l.filter q).find? (fun t => decide (t.touchId = j)) = none := by
  induction l with
  | nil => rfl
  | cons a l ih =>
      cases hq : q a with
      | false => simpa [List.filter_cons, hq] using ih
      | true =>
          have haj : ¬ a.touchId = j := by
            intro hc
            rw [h a hc] at hq
            cases hq
          simp [List.filter_cons, hq, List.find?_cons, haj, ih]

/-- Filtering with a predicate that keeps every id-`j` element preserves
the `j` entry. -/
theorem find?_filter_keep (l : List TouchData) (q : TouchData → Bool) (j : ℤ)
    (h : ∀ t, t.touchId = j → q t = true) :
    (l.filter q).find? (fun t => decide (t.touchId = j)) =
      l.find? (fun t => decide (t.touchId = j)) := by
  induction l with
  | nil => rfl
  | cons a l ih =>
      by_cases haj : a.touchId = j
      · have hqa : q a = true := h a haj
        simp [List.filter_cons, hqa, List.find?_cons, haj]
      · cases hq : q a with
        | true => simp [List.filter_cons, hq, List.find?_cons, haj, ih]
        | false => simp [List.filter_cons, hq, List.find?_cons, haj, ih]

/-- Processing a whole batch does not disturb a pointer absent from it. -/
theorem foldl_processInput_find?_ne (env : FretEnv) (G : FreqGuards)
    (nidOf : ℤ → ℕ) (now : ℚ) (j : ℤ) : ∀ (batch : List TouchPoint),
    (∀ tp ∈ batch, tp.id ≠ j) → ∀ st : List TouchData,
    ((batch.foldl (fun m tp => processInput env G m tp.id tp.clientX tp.clientY
        tp.rawForce (nidOf tp.id) now) st).find? (fun t => decide (t.touchId = j)))
      = st.find? (fun t => decide (t.touchId = j)) := by
  intro batch
  induction batch with
  | nil => intro _ st; rfl
  | cons tp batch ih =>
      intro hb st
      rw [List.foldl_cons]
      rw [ih (fun u hu => hb u (List.mem_cons_of_mem _ hu))]
      exact processInput_find?_ne env G st tp.id tp.clientX tp.clientY tp.rawForce
        (nidOf tp.id) now j (fun hc => hb tp (List.mem_cons_self _ _) hc.symm)

/-- C10: processing a touch batch (menu closed) removes every tracked
pointer absent from the batch except the synthetic mouse pointer, whose
entry the touch handler leaves completely unchanged when the batch does
not carry its id; the mouse entry is removed by mouse-up, or by the
cursor leaving the surface while pressed (and only then — an unpressed
up/leave is a no-op, and mouse-down/move never remove any entry). -/
theorem pointer_removal_spec (env : FretEnv) (G : FreqGuards) (nidOf : ℤ → ℕ)
    (now : ℚ) (st : List TouchData) (batch : List TouchPoint) (j : ℤ)
    (cx cy : ℚ) (nid : ℕ) (md : Bool)
    (hj : ∀ tp ∈ batch, tp.id ≠ j) :
    (j ≠ MOUSE_ID →
      (handleNativeTouch env G false nidOf now st batch).find?
        (fun t => decide (t.touchId = j)) = none) ∧
    (j = MOUSE_ID →
      (handleNativeTouch env G false nidOf now st batch).find?
        (fun t => decide (t.touchId = j)) =
      st.find? (fun t => decide (t.touchId = j))) ∧
    (handleMouseUp true st).2.find? (fun t => decide (t.touchId = MOUSE_ID)) = none ∧
    (∀ i : ℤ, i ≠ MOUSE_ID →
      (handleMouseUp true st).2.find? (fun t => decide (t.touchId = i)) =
        st.find? (fun t => decide (t.touchId = i))) ∧
    handleMouseUp false st = (false, st) ∧
    (handleMouseLeave true st).2.find? (fun t => decide (t.touchId = MOUSE_ID)) = none ∧
    handleMouseLeave false st = (false, st) ∧
    ((st.find? (fun t => decide (t.touchId = j))).isSome = true →
      ((handleMouseDown env G false md nid now st cx cy).2.find?
        (fun t => decide (t.touchId = j))).isSome = true ∧
      ((handleMouseMove env G false true nid now st cx cy).2.find?
        (fun t => decide (t.touchId = j))).isSome = true) := by
  have hfold := foldl_processInput_find?_ne env G nidOf now j batch hj st
  refine ⟨?_, ?_, ?_, ?_, rfl, ?_, rfl, ?_⟩
  · intro hjm
    unfold handleNativeTouch
    rw [if_neg (by simp)]
    apply find?_filter_none
    intro t htj
    simp [htj, hjm]
    exact fun x hx => hj x hx
  · intro hjm
    unfold handleNativeTouch
    rw [if_neg (by simp)]
    rw [find?_filter_keep _ _ _ (fun t htj => by simp [htj, hjm])]
    exact hfold
  · unfold handleMouseUp
    rw [if_pos rfl]
    apply find?_filter_none
    intro t htj
    simp [htj]
  · intro i hi
    unfold handleMouseUp
    rw [if_pos rfl]
    apply find?_filter_keep
    intro t htj
    simp [htj, hi]
  · unfold handleMouseLeave
    rw [if_pos rfl]
    apply find?_filter_none
    intro t htj
    simp [htj]
  · intro hsome
    constructor
    · unfold handleMouseDown
      rw [if_neg (by simp)]
      exact processInput_find?_isSome env G st MOUSE_ID cx cy 0.8 nid now j hsome
    · unfold handleMouseMove
      rw [if_neg (by simp)]
      exact processInput_find?_isSome env G st MOUSE_ID cx cy 0.8 nid now j hsome

/-- A batch contact with id `1`, for the C10 witness. -/
def samplePoint : TouchPoint := { id := 1, clientX := 50, clientY := 50, rawForce := 1 }

/-- C10: processing a touch batch (menu closed) removes every tracked
pointer absent from the batch except the synthetic mouse pointer, whose
entry the touch handler leaves completely unchanged when the batch does
not carry its id; the mouse entry is removed by mouse-up, or by the
cursor leaving the surface while pressed (and only then — an unpressed
up/leave is a no-op, and mouse-down/move never remove any entry). -/
theorem pointer_removal_spec_witness :
    (∀ tp ∈ [samplePoint], tp.id ≠ 3) ∧
    (((3 : ℤ) ≠ MOUSE_ID →
      (handleNativeTouch sampleEnv exactGuards false (fun x => 0) 0
        [touchA, touchC] [samplePoint]).find?
        (fun t => decide (t.touchId = 3)) = none) ∧
    ((3 : ℤ) = MOUSE_ID →
      (handleNativeTouch sampleEnv exactGuards false (fun x => 0) 0
        [touchA, touchC] [samplePoint]).find?
        (fun t => decide (t.touchId = 3)) =
      List.find? (fun t => decide (t.touchId = 3)) [touchA, touchC]) ∧
    (handleMouseUp true [touchA, touchC]).2.find?
      (fun t => decide (t.touchId = MOUSE_ID)) = none ∧
    (∀ i : ℤ, i ≠ MOUSE_ID →
      (handleMouseUp true [touchA, touchC]).2.find?
        (fun t => decide (t.touchId = i)) =
      List.find? (fun t => decide (t.touchId = i)) [touchA, touchC]) ∧
    handleMouseUp false [touchA, touchC] = (false, [touchA, touchC]) ∧
    (handleMouseLeave true [touchA, touchC]).2.find?
      (fun t => decide (t.touchId = MOUSE_ID)) = none ∧
    handleMouseLeave false [touchA, touchC] = (false, [touchA, touchC]) ∧
    ((List.find? (fun t => decide (t.touchId = 3)) [touchA, touchC]).isSome = true →
      ((handleMouseDown sampleEnv exactGuards false false 0 0
        [touchA, touchC] 50 50).2.find?
        (fun t => decide (t.touchId = 3))).isSome = true ∧
      ((handleMouseMove sampleEnv exactGuards false true 0 0
        [touchA, touchC] 50 50).2.find?
        (fun t => decide (t.touchId = 3))).isSome = true)) :=
  ⟨by decide,
    pointer_removal_spec sampleEnv exactGuards (fun x => 0) 0 [touchA, touchC]
      [samplePoint] 3 50 50 0 false (by decide)⟩

/-- Witness for C6 at string count `6`. -/
theorem getTuning_spec_witness :
    (4 : ℤ) ≤ 6 ∧ (6 : ℤ) ≤ 8 ∧ (getTuning 6).length = (6 : ℤ).toNat :=
  ⟨by decide, by decide, getTuning_spec.2.2.1 6 (by decide) (by decide)⟩
